import Mathlib

/- Shallow embedding of the R1CS constraint-system core of the bulletproofs
repository, translated from src/circuit_proof/r1cs.rs.  Machine integers
(usize) are modelled as Nat; the curve25519 scalar field is modelled as
ZMod of the group order. -/

set_option maxHeartbeats 1000000

/-- Order of the ristretto255 / curve25519 scalar field, the field of
`curve25519_dalek::scalar::Scalar`. -/
def curveOrder : Nat := 2 ^ 252 + 27742317777372353535851937790883648493

/-- The scalar field used for all coefficients and assignments. -/
abbrev Scalar := ZMod curveOrder

/-- Error enumeration `R1CSError` (errors.rs is not part of the sources; the
variants are those referenced by the sources: `InvalidVariableAssignment` and
`IncorrectInputSize` in r1cs.rs, plus `MissingAssignment`,
`InvalidGeneratorsLength`, `VerificationError` referenced in
circuit_proof/mod.rs). -/
inductive R1CSError where
  | InvalidVariableAssignment
  | IncorrectInputSize
  | MissingAssignment
  | InvalidGeneratorsLength
  | VerificationError
deriving DecidableEq

/-- `pub type Assignment = Result<Scalar, R1CSError>` (r1cs.rs line 27). -/
inductive Assignment where
  | ok (value : Scalar)
  | err (e : R1CSError)
deriving DecidableEq

/-- `err_assignment()` (r1cs.rs lines 29-31). -/
def err_assignment : Assignment := .err .InvalidVariableAssignment

/-- The four variable classes of `VariableType` (r1cs.rs lines 12-18). -/
inductive VariableType where
  | v
  | aL
  | aR
  | aO
deriving DecidableEq

/-- `Variable` (r1cs.rs lines 21-25). -/
structure Variable where
  var_type : VariableType
  index : Nat
deriving DecidableEq

/-- `LinearCombination` (r1cs.rs lines 36-40).  The source calls the term
list `variables`; that word is a reserved command token in Lean, so the field
is named `terms` here. -/
structure LinearCombination where
  terms : List (Variable × Scalar)
  constant : Scalar
deriving DecidableEq

/-- `ConstraintSystem` state (r1cs.rs lines 68-76). -/
structure ConstraintSystem where
  lc_vec : List LinearCombination
  aL_assignment : List Assignment
  aR_assignment : List Assignment
  aO_assignment : List Assignment
  v_assignment : List Assignment
deriving DecidableEq

/-- `ConstraintSystem::new` (r1cs.rs lines 79-87). -/
def ConstraintSystem.new : ConstraintSystem :=
  ⟨[], [], [], [], []⟩

/-- `ConstraintSystem::make_variable` (r1cs.rs lines 109-129): push the value
onto the vector selected by the variable type and return a handle whose index
is the new length minus one, i.e. the length before the push. -/
def ConstraintSystem.make_variable (cs : ConstraintSystem) (t : VariableType)
    (value : Assignment) : ConstraintSystem × Variable :=
  match t with
  | .aL => ({ cs with aL_assignment := cs.aL_assignment ++ [value] },
            ⟨.aL, cs.aL_assignment.length⟩)
  | .aR => ({ cs with aR_assignment := cs.aR_assignment ++ [value] },
            ⟨.aR, cs.aR_assignment.length⟩)
  | .aO => ({ cs with aO_assignment := cs.aO_assignment ++ [value] },
            ⟨.aO, cs.aO_assignment.length⟩)
  | .v  => ({ cs with v_assignment := cs.v_assignment ++ [value] },
            ⟨.v, cs.v_assignment.length⟩)

/-- `ConstraintSystem::assign_a` (r1cs.rs lines 91-101): allocate the three
wires of one multiplication gate, storing the caller's assignments verbatim.
The source performs no consistency or mixing check and cannot fail. -/
def ConstraintSystem.assign_a (cs : ConstraintSystem)
    (aL_val aR_val aO_val : Assignment) :
    ConstraintSystem × (Variable × Variable × Variable) :=
  let r1 := cs.make_variable .aL aL_val
  let r2 := r1.1.make_variable .aR aR_val
  let r3 := r2.1.make_variable .aO aO_val
  (r3.1, (r1.2, r2.2, r3.2))

/-- `ConstraintSystem::assign_v` (r1cs.rs lines 105-107). -/
def ConstraintSystem.assign_v (cs : ConstraintSystem) (v_val : Assignment) :
    ConstraintSystem × Variable :=
  cs.make_variable .v v_val

/-- Rust `usize::is_power_of_two`: true exactly when the number is a power of
two (so false at 0).  Any exponent k with n = 2 ^ k satisfies k ≤ n, so
searching k ≤ n is exhaustive. -/
def is_power_of_two (n : Nat) : Bool :=
  (List.range (n + 1)).any (fun k => n == 2 ^ k)

/-- Rust `usize::next_power_of_two`: the least power of two greater than or
equal to n (1 at n = 0), expressed with the ceiling logarithm. -/
def next_power_of_two (n : Nat) : Nat := 2 ^ Nat.clog 2 n

/-- `ConstraintSystem::get_n` (r1cs.rs lines 131-138). -/
def ConstraintSystem.get_n (cs : ConstraintSystem) : Nat :=
  let n := cs.aL_assignment.length
  if n = 0 ∨ is_power_of_two n = true then n else next_power_of_two n

/-- `ConstraintSystem::get_m` (r1cs.rs lines 141-143). -/
def ConstraintSystem.get_m (cs : ConstraintSystem) : Nat :=
  cs.v_assignment.length

/-- `ConstraintSystem::constrain` (r1cs.rs lines 160-164): push the linear
combination; no validation is performed. -/
def ConstraintSystem.constrain (cs : ConstraintSystem) (lc : LinearCombination) :
    ConstraintSystem :=
  { cs with lc_vec := cs.lc_vec ++ [lc] }

/-- The circuit tuple built by `Circuit::new(n, m, q, c, W_L, W_R, W_O, W_V)`
(the struct lives in circuit.rs, outside the given sources; its components and
their order are visible at the call site, r1cs.rs line 218). -/
structure Circuit where
  n : Nat
  m : Nat
  q : Nat
  c : List Scalar
  W_L : List (List Scalar)
  W_R : List (List Scalar)
  W_O : List (List Scalar)
  W_V : List (List Scalar)
deriving DecidableEq

/-- The prover bundle built by `ProverInput::new(aL, aR, aO, v_blinding)` (the
struct lives in circuit.rs, outside the given sources; its four components are
visible at the call site, r1cs.rs line 183). -/
structure ProverInput where
  aL : List Scalar
  aR : List Scalar
  aO : List Scalar
  v_blinding : List Scalar
deriving DecidableEq

/-- Write x into cell (i, j) of a row-major matrix, as Rust `M[i][j] = x`.
(If the indices are out of range the Rust code panics; `List.set` leaves the
matrix unchanged instead, and the in-bounds theorems rule this case out.) -/
def matWrite (M : List (List Scalar)) (i j : Nat) (x : Scalar) :
    List (List Scalar) :=
  M.set i ((M.getD i []).set j x)

/-- Read cell (i, j) of a row-major matrix, 0 outside the bounds. -/
def mget (M : List (List Scalar)) (i j : Nat) : Scalar :=
  (M.getD i []).getD j 0

/-- The mutable state of the matrix-assembly loop of
`ConstraintSystem::create_circuit` (r1cs.rs lines 199-216). -/
structure AssemblyState where
  W_L : List (List Scalar)
  W_R : List (List Scalar)
  W_O : List (List Scalar)
  W_V : List (List Scalar)
  c : List Scalar
deriving DecidableEq

/-- One iteration of the inner loop of `create_circuit` (r1cs.rs lines
207-214): a term on an aL/aR/aO wire writes the negated coefficient into the
matching matrix, a term on a v wire writes the coefficient as is. -/
def applyTerm (i : Nat) (st : AssemblyState) (t : Variable × Scalar) :
    AssemblyState :=
  match t.1.var_type with
  | .aL => { st with W_L := matWrite st.W_L i t.1.index (-t.2) }
  | .aR => { st with W_R := matWrite st.W_R i t.1.index (-t.2) }
  | .aO => { st with W_O := matWrite st.W_O i t.1.index (-t.2) }
  | .v  => { st with W_V := matWrite st.W_V i t.1.index t.2 }

/-- One iteration of the outer loop of `create_circuit` (r1cs.rs lines
206-216): process every term of the linear combination, then store its
constant into c at the constraint index. -/
def applyLC (st : AssemblyState) (i : Nat) (lc : LinearCombination) :
    AssemblyState :=
  let st1 := lc.terms.foldl (applyTerm i) st
  { st1 with c := st1.c.set i lc.constant }

/-- The zero-filled matrices allocated by `create_circuit` (r1cs.rs lines
199-204): three q×n matrices, one q×m matrix and a length-q vector. -/
def initAssembly (q n m : Nat) : AssemblyState :=
  ⟨List.replicate q (List.replicate n 0),
   List.replicate q (List.replicate n 0),
   List.replicate q (List.replicate n 0),
   List.replicate q (List.replicate m 0),
   List.replicate q 0⟩

/-- The outer loop of `create_circuit` (r1cs.rs lines 206-216) over the
enumerated constraint list. -/
def foldRows (st : AssemblyState) (rows : List (Nat × LinearCombination)) :
    AssemblyState :=
  rows.foldl (fun st1 p => applyLC st1 p.1 p.2) st

/-- `ConstraintSystem::create_circuit` (r1cs.rs lines 194-219). -/
def ConstraintSystem.create_circuit (cs : ConstraintSystem) : Circuit :=
  let n := cs.get_n
  let m := cs.v_assignment.length
  let q := cs.lc_vec.length
  let res := foldRows (initAssembly q n m) cs.lc_vec.enum
  ⟨n, m, q, res.c, res.W_L, res.W_R, res.W_O, res.W_V⟩

/-- Fold `collect::<Result<Vec<_>, _>>()` over a Rust assignment vector:
the first stored error short-circuits the collection. -/
def collectAssignments : List Assignment → Except R1CSError (List Scalar)
  | [] => .ok []
  | .ok s :: rest =>
      match collectAssignments rest with
      | .ok ys => .ok (s :: ys)
      | .error e => .error e
  | .err e :: _ => .error e

/-- `ConstraintSystem::create_prover_input` (r1cs.rs lines 166-184): collect
the three multiplier assignment vectors, propagating the first stored error,
and bundle them with the blinding vector. -/
def ConstraintSystem.create_prover_input (cs : ConstraintSystem)
    (v_blinding : List Scalar) : Except R1CSError ProverInput :=
  match collectAssignments cs.aL_assignment with
  | .error e => .error e
  | .ok aL =>
    match collectAssignments cs.aR_assignment with
    | .error e => .error e
    | .ok aR =>
      match collectAssignments cs.aO_assignment with
      | .error e => .error e
      | .ok aO => .ok ⟨aL, aR, aO, v_blinding⟩

/-- The `for _ in 0..pad` loop body of `create_proof_input` (r1cs.rs lines
236-238), repeated a given number of times: each iteration allocates one
(0, 0, 0)-valued multiplier gate. -/
def padLoop (cs : ConstraintSystem) : Nat → ConstraintSystem
  | 0 => cs
  | k + 1 => padLoop ((cs.assign_a (.ok 0) (.ok 0) (.ok 0)).1) k

/-- The padding step of `create_proof_input` (r1cs.rs lines 231-239): when the
multiplier count is neither 0 nor a power of two, append zero-valued gates up
to the next power of two. -/
def ConstraintSystem.padded (cs : ConstraintSystem) : ConstraintSystem :=
  let n := cs.aL_assignment.length
  if n = 0 ∨ is_power_of_two n = true then cs
  else padLoop cs (next_power_of_two n - n)

/-- `ConstraintSystem::create_proof_input` (r1cs.rs lines 222-247), restricted
to the circuit and the prover bundle.  The source samples `v_blinding` as
`get_m` random scalars; randomness is out of scope so the vector is a
parameter here.  The verifier bundle (Pedersen commitments of the
v-assignments) involves the out-of-scope curve group and is not modelled. -/
def ConstraintSystem.create_proof_input (cs : ConstraintSystem)
    (v_blinding : List Scalar) : Circuit × Except R1CSError ProverInput :=
  let cs1 := cs.padded
  (cs1.create_circuit, cs1.create_prover_input v_blinding)

/-- A gadget-visible operation on a constraint system: the three mutating
calls a caller can make between `new` and finalization. -/
inductive Op where
  | assignA (l r o : Assignment)
  | assignV (value : Assignment)
  | addConstraint (lc : LinearCombination)
deriving DecidableEq

/-- Run one operation (discarding the returned handles). -/
def runOp (cs : ConstraintSystem) : Op → ConstraintSystem
  | .assignA l r o => (cs.assign_a l r o).1
  | .assignV value => (cs.assign_v value).1
  | .addConstraint lc => cs.constrain lc

/-- Run a sequence of operations from a starting state. -/
def runOps (cs : ConstraintSystem) (ops : List Op) : ConstraintSystem :=
  ops.foldl runOp cs

/-- Whether a variable handle points at an already-allocated slot of the
system: a handle previously returned by `make_variable` always satisfies
this, since `make_variable` returns the pre-push length as index. -/
def varInScope (cs : ConstraintSystem) (v : Variable) : Bool :=
  match v.var_type with
  | .aL => decide (v.index < cs.aL_assignment.length)
  | .aR => decide (v.index < cs.aR_assignment.length)
  | .aO => decide (v.index < cs.aO_assignment.length)
  | .v  => decide (v.index < cs.v_assignment.length)

/-- Checks that every constraint added along an operation sequence only uses
variable handles already allocated at that point. -/
def opsValid (cs : ConstraintSystem) : List Op → Bool
  | [] => true
  | op :: rest =>
    (match op with
     | .addConstraint lc => lc.terms.all (fun t => varInScope cs t.1)
     | _ => true) && opsValid (runOp cs op) rest

/-- Every variable of every recorded constraint is in scope. -/
def scopedCS (cs : ConstraintSystem) : Prop :=
  ∀ lc ∈ cs.lc_vec, ∀ t ∈ lc.terms, varInScope cs t.1 = true

/-- Two operations make the same calls with the same linear combinations,
differing at most in the assignment values supplied (prover-style present
values versus verifier-style stored errors). -/
def opShapeEq : Op → Op → Prop
  | .assignA _ _ _, .assignA _ _ _ => True
  | .assignV _, .assignV _ => True
  | .addConstraint lc1, .addConstraint lc2 => lc1 = lc2
  | _, _ => False

/-- The two systems agree on everything `create_circuit` and the padding
step read: the constraint list and the lengths of the assignment vectors. -/
def shapeEq (cs1 cs2 : ConstraintSystem) : Prop :=
  cs1.lc_vec = cs2.lc_vec ∧
  cs1.aL_assignment.length = cs2.aL_assignment.length ∧
  cs1.aR_assignment.length = cs2.aR_assignment.length ∧
  cs1.aO_assignment.length = cs2.aO_assignment.length ∧
  cs1.v_assignment.length = cs2.v_assignment.length

/-- Whether a stored assignment is an `Ok` value. -/
def Assignment.isOk : Assignment → Bool
  | .ok _ => true
  | .err _ => false

/-- The matrix dimension a variable of the given type indexes into: n for the
three multiplier classes, m for committed wires. -/
def dimOf (ty : VariableType) (n m : Nat) : Nat :=
  match ty with
  | .v => m
  | _ => n

/-- The value `create_circuit` writes for a coefficient on a wire of the
given type: negated for the three multiplier classes, as-is for committed
wires (r1cs.rs lines 209-212). -/
def signCoeff (ty : VariableType) (x : Scalar) : Scalar :=
  match ty with
  | .v => x
  | _ => -x

/-- The matrix of the circuit a variable of the given type is entered in. -/
def Circuit.matOf (C : Circuit) (ty : VariableType) : List (List Scalar) :=
  match ty with
  | .aL => C.W_L
  | .aR => C.W_R
  | .aO => C.W_O
  | .v  => C.W_V

/-- The matrix of the assembly state a variable of the given type is entered
in. -/
def cellOf (st : AssemblyState) (ty : VariableType) (i k : Nat) : Scalar :=
  match ty with
  | .aL => mget st.W_L i k
  | .aR => mget st.W_R i k
  | .aO => mget st.W_O i k
  | .v  => mget st.W_V i k

/-- The coefficient of the last term of the list whose variable equals v, if
any: since the assembly loop overwrites cells, the last write wins. -/
def lastWrite (v : Variable) : List (Variable × Scalar) → Option Scalar
  | [] => none
  | t :: ts =>
    match lastWrite v ts with
    | some x => some x
    | none => if t.1 = v then some t.2 else none

/-- The final cell content as a function of the last write, given the cell's
initial content. -/
def writeResult (ty : VariableType) (dflt : Scalar) : Option Scalar → Scalar
  | some x => signCoeff ty x
  | none => dflt

/-- Dimension bookkeeping for the assembly state. -/
def goodShape (st : AssemblyState) (q n m : Nat) : Prop :=
  st.W_L.length = q ∧ (∀ row ∈ st.W_L, row.length = n) ∧
  st.W_R.length = q ∧ (∀ row ∈ st.W_R, row.length = n) ∧
  st.W_O.length = q ∧ (∀ row ∈ st.W_O, row.length = n) ∧
  st.W_V.length = q ∧ (∀ row ∈ st.W_V, row.length = m) ∧
  st.c.length = q

lemma assign_a_fst (cs : ConstraintSystem) (l r o : Assignment) :
    (cs.assign_a l r o).1 =
      { cs with aL_assignment := cs.aL_assignment ++ [l],
                aR_assignment := cs.aR_assignment ++ [r],
                aO_assignment := cs.aO_assignment ++ [o] } := rfl

lemma assign_a_snd (cs : ConstraintSystem) (l r o : Assignment) :
    (cs.assign_a l r o).2 =
      (⟨.aL, cs.aL_assignment.length⟩, ⟨.aR, cs.aR_assignment.length⟩,
       ⟨.aO, cs.aO_assignment.length⟩) := rfl

lemma padLoop_fields (k : Nat) (cs : ConstraintSystem) :
    (padLoop cs k).lc_vec = cs.lc_vec ∧
    (padLoop cs k).v_assignment = cs.v_assignment ∧
    (padLoop cs k).aL_assignment = cs.aL_assignment ++ List.replicate k (.ok 0) ∧
    (padLoop cs k).aR_assignment = cs.aR_assignment ++ List.replicate k (.ok 0) ∧
    (padLoop cs k).aO_assignment = cs.aO_assignment ++ List.replicate k (.ok 0) := by
  induction k generalizing cs with
  | zero => simp [padLoop]
  | succ k ih =>
    have h := ih ((cs.assign_a (.ok 0) (.ok 0) (.ok 0)).1)
    rw [assign_a_fst] at h
    simpa [padLoop, List.replicate_succ, List.append_assoc] using h

lemma le_next_power_of_two (n : Nat) : n ≤ next_power_of_two n :=
  Nat.le_pow_clog (by norm_num) n

lemma next_power_of_two_le {n k : Nat} (h : n ≤ 2 ^ k) :
    next_power_of_two n ≤ 2 ^ k :=
  Nat.pow_le_pow_right (by norm_num)
    ((Nat.le_pow_iff_clog_le (by norm_num)).mp h)

lemma is_power_of_two_iff {n : Nat} :
    is_power_of_two n = true ↔ ∃ k, n = 2 ^ k := by
  unfold is_power_of_two
  simp only [List.any_eq_true, List.mem_range, beq_iff_eq]
  constructor
  · rintro ⟨k, _, h⟩
    exact ⟨k, h⟩
  · rintro ⟨k, rfl⟩
    exact ⟨k, Nat.lt_succ_of_le (Nat.le_of_lt (Nat.lt_two_pow k)), rfl⟩

lemma is_power_of_two_next (n : Nat) :
    is_power_of_two (next_power_of_two n) = true :=
  is_power_of_two_iff.mpr ⟨Nat.clog 2 n, rfl⟩

lemma next_power_of_two_three : next_power_of_two 3 = 4 := by
  norm_num [next_power_of_two, Nat.clog]

lemma padded_def (cs : ConstraintSystem) :
    cs.padded =
      if cs.aL_assignment.length = 0 ∨
          is_power_of_two cs.aL_assignment.length = true then cs
      else padLoop cs
        (next_power_of_two cs.aL_assignment.length - cs.aL_assignment.length) :=
  rfl

lemma get_n_def (cs : ConstraintSystem) :
    cs.get_n =
      if cs.aL_assignment.length = 0 ∨
          is_power_of_two cs.aL_assignment.length = true
      then cs.aL_assignment.length
      else next_power_of_two cs.aL_assignment.length :=
  rfl

lemma padded_lc_vec (cs : ConstraintSystem) : cs.padded.lc_vec = cs.lc_vec := by
  rw [padded_def]
  by_cases hc : cs.aL_assignment.length = 0 ∨
      is_power_of_two cs.aL_assignment.length = true
  · rw [if_pos hc]
  · rw [if_neg hc]
    exact (padLoop_fields _ cs).1

lemma padded_v_assignment (cs : ConstraintSystem) :
    cs.padded.v_assignment = cs.v_assignment := by
  rw [padded_def]
  by_cases hc : cs.aL_assignment.length = 0 ∨
      is_power_of_two cs.aL_assignment.length = true
  · rw [if_pos hc]
  · rw [if_neg hc]
    exact (padLoop_fields _ cs).2.1

lemma padded_aL_length (cs : ConstraintSystem) :
    cs.padded.aL_assignment.length = cs.get_n := by
  rw [padded_def, get_n_def]
  by_cases hc : cs.aL_assignment.length = 0 ∨
      is_power_of_two cs.aL_assignment.length = true
  · rw [if_pos hc, if_pos hc]
  · rw [if_neg hc, if_neg hc, (padLoop_fields _ cs).2.2.1]
    simp only [List.length_append, List.length_replicate]
    exact Nat.add_sub_cancel' (le_next_power_of_two _)

lemma padded_aR_length (cs : ConstraintSystem)
    (hR : cs.aR_assignment.length = cs.aL_assignment.length) :
    cs.padded.aR_assignment.length = cs.get_n := by
  rw [padded_def, get_n_def]
  by_cases hc : cs.aL_assignment.length = 0 ∨
      is_power_of_two cs.aL_assignment.length = true
  · rw [if_pos hc, if_pos hc]
    exact hR
  · rw [if_neg hc, if_neg hc, (padLoop_fields _ cs).2.2.2.1]
    simp only [List.length_append, List.length_replicate, hR]
    exact Nat.add_sub_cancel' (le_next_power_of_two _)

lemma padded_aO_length (cs : ConstraintSystem)
    (hO : cs.aO_assignment.length = cs.aL_assignment.length) :
    cs.padded.aO_assignment.length = cs.get_n := by
  rw [padded_def, get_n_def]
  by_cases hc : cs.aL_assignment.length = 0 ∨
      is_power_of_two cs.aL_assignment.length = true
  · rw [if_pos hc, if_pos hc]
    exact hO
  · rw [if_neg hc, if_neg hc, (padLoop_fields _ cs).2.2.2.2]
    simp only [List.length_append, List.length_replicate, hO]
    exact Nat.add_sub_cancel' (le_next_power_of_two _)

lemma get_n_zero_or_pow (cs : ConstraintSystem) :
    cs.get_n = 0 ∨ is_power_of_two cs.get_n = true := by
  rw [get_n_def]
  by_cases hc : cs.aL_assignment.length = 0 ∨
      is_power_of_two cs.aL_assignment.length = true
  · rw [if_pos hc]
    exact hc
  · rw [if_neg hc]
    exact Or.inr (is_power_of_two_next _)

lemma get_n_padded (cs : ConstraintSystem) : cs.padded.get_n = cs.get_n := by
  rw [get_n_def, padded_aL_length, if_pos (get_n_zero_or_pow cs)]

lemma aL_length_le_get_n (cs : ConstraintSystem) :
    cs.aL_assignment.length ≤ cs.get_n := by
  rw [get_n_def]
  by_cases hc : cs.aL_assignment.length = 0 ∨
      is_power_of_two cs.aL_assignment.length = true
  · rw [if_pos hc]
  · rw [if_neg hc]
    exact le_next_power_of_two _

lemma runOps_cons (cs : ConstraintSystem) (op : Op) (ops : List Op) :
    runOps cs (op :: ops) = runOps (runOp cs op) ops := rfl

lemma runOps_parallel (ops : List Op) (cs : ConstraintSystem)
    (hR : cs.aR_assignment.length = cs.aL_assignment.length)
    (hO : cs.aO_assignment.length = cs.aL_assignment.length) :
    (runOps cs ops).aR_assignment.length = (runOps cs ops).aL_assignment.length ∧
    (runOps cs ops).aO_assignment.length = (runOps cs ops).aL_assignment.length := by
  induction ops generalizing cs with
  | nil => exact ⟨hR, hO⟩
  | cons op rest ih =>
    rw [runOps_cons]
    cases op with
    | assignA l r o =>
      exact ih _ (by simp [runOp, assign_a_fst, hR]) (by simp [runOp, assign_a_fst, hO])
    | assignV value =>
      exact ih _ (by simp [runOp, ConstraintSystem.assign_v, ConstraintSystem.make_variable, hR])
        (by simp [runOp, ConstraintSystem.assign_v, ConstraintSystem.make_variable, hO])
    | addConstraint lc =>
      exact ih _ (by simp [runOp, ConstraintSystem.constrain, hR])
        (by simp [runOp, ConstraintSystem.constrain, hO])

/-- C9: every multiplier allocation appends exactly one entry to each of the
a_L, a_R, a_O assignment vectors and returns three variables carrying the
same fresh index, the common pre-allocation length; on any state reached from
`new` by a sequence of operations the three vectors have equal length. -/
theorem C9_parallel_multipliers (ops : List Op) (l r o : Assignment) :
    (runOps ConstraintSystem.new ops).aR_assignment.length =
      (runOps ConstraintSystem.new ops).aL_assignment.length ∧
    (runOps ConstraintSystem.new ops).aO_assignment.length =
      (runOps ConstraintSystem.new ops).aL_assignment.length ∧
    ((runOps ConstraintSystem.new ops).assign_a l r o).2 =
      (⟨.aL, (runOps ConstraintSystem.new ops).aL_assignment.length⟩,
       ⟨.aR, (runOps ConstraintSystem.new ops).aL_assignment.length⟩,
       ⟨.aO, (runOps ConstraintSystem.new ops).aL_assignment.length⟩) ∧
    ((runOps ConstraintSystem.new ops).assign_a l r o).1.aL_assignment =
      (runOps ConstraintSystem.new ops).aL_assignment ++ [l] ∧
    ((runOps ConstraintSystem.new ops).assign_a l r o).1.aR_assignment =
      (runOps ConstraintSystem.new ops).aR_assignment ++ [r] ∧
    ((runOps ConstraintSystem.new ops).assign_a l r o).1.aO_assignment =
      (runOps ConstraintSystem.new ops).aO_assignment ++ [o] := by
  obtain ⟨hR, hO⟩ := runOps_parallel ops ConstraintSystem.new rfl rfl
  refine ⟨hR, hO, ?_, rfl, rfl, rfl⟩
  rw [assign_a_snd, hR, hO]

/-- C4: padding at finalization: a multiplier count that is zero or a power
of two is left untouched; otherwise zero-valued gates are appended to reach
the least power of two above the count, leaving the constraint list and the
committed wires unchanged. -/
theorem C4_power_of_two_padding (cs : ConstraintSystem) :
    cs.padded.lc_vec = cs.lc_vec ∧
    cs.padded.v_assignment = cs.v_assignment ∧
    ((cs.aL_assignment.length = 0 ∨
        is_power_of_two cs.aL_assignment.length = true) → cs.padded = cs) ∧
    (¬ (cs.aL_assignment.length = 0 ∨
        is_power_of_two cs.aL_assignment.length = true) →
      cs.padded.aL_assignment = cs.aL_assignment ++
        List.replicate
          (next_power_of_two cs.aL_assignment.length - cs.aL_assignment.length)
          (.ok 0) ∧
      cs.padded.aR_assignment = cs.aR_assignment ++
        List.replicate
          (next_power_of_two cs.aL_assignment.length - cs.aL_assignment.length)
          (.ok 0) ∧
      cs.padded.aO_assignment = cs.aO_assignment ++
        List.replicate
          (next_power_of_two cs.aL_assignment.length - cs.aL_assignment.length)
          (.ok 0) ∧
      cs.padded.aL_assignment.length =
        next_power_of_two cs.aL_assignment.length ∧
      is_power_of_two cs.padded.aL_assignment.length = true ∧
      (∀ p, cs.aL_assignment.length ≤ 2 ^ p →
        cs.padded.aL_assignment.length ≤ 2 ^ p)) := by
  refine ⟨padded_lc_vec cs, padded_v_assignment cs, ?_, ?_⟩
  · intro h
    rw [padded_def, if_pos h]
  · intro h
    have hpad : cs.padded = padLoop cs
        (next_power_of_two cs.aL_assignment.length - cs.aL_assignment.length) := by
      rw [padded_def, if_neg h]
    have hlen : cs.padded.aL_assignment.length =
        next_power_of_two cs.aL_assignment.length := by
      rw [hpad, (padLoop_fields _ cs).2.2.1]
      simp only [List.length_append, List.length_replicate]
      exact Nat.add_sub_cancel' (le_next_power_of_two _)
    refine ⟨?_, ?_, ?_, hlen, ?_, ?_⟩
    · rw [hpad]; exact (padLoop_fields _ cs).2.2.1
    · rw [hpad]; exact (padLoop_fields _ cs).2.2.2.1
    · rw [hpad]; exact (padLoop_fields _ cs).2.2.2.2
    · rw [hlen]; exact is_power_of_two_next _
    · intro p hp
      rw [hlen]
      exact next_power_of_two_le hp

/-- Witness for C4 at a concrete system with three multiplier gates: padding
appends one zero gate, reaching length four, and leaves constraints and
committed wires unchanged. -/
theorem C4_power_of_two_padding_witness :
    ¬ ((runOps ConstraintSystem.new
          [.assignA (.ok 1) (.ok 1) (.ok 1), .assignA (.ok 1) (.ok 1) (.ok 1),
           .assignA (.ok 1) (.ok 1) (.ok 1)]).aL_assignment.length = 0 ∨
        is_power_of_two (runOps ConstraintSystem.new
          [.assignA (.ok 1) (.ok 1) (.ok 1), .assignA (.ok 1) (.ok 1) (.ok 1),
           .assignA (.ok 1) (.ok 1) (.ok 1)]).aL_assignment.length = true) ∧
    (runOps ConstraintSystem.new
        [.assignA (.ok 1) (.ok 1) (.ok 1), .assignA (.ok 1) (.ok 1) (.ok 1),
         .assignA (.ok 1) (.ok 1) (.ok 1)]).padded.aL_assignment.length = 4 := by
  refine ⟨by decide, ?_⟩
  have h := (C4_power_of_two_padding (runOps ConstraintSystem.new
      [.assignA (.ok 1) (.ok 1) (.ok 1), .assignA (.ok 1) (.ok 1) (.ok 1),
       .assignA (.ok 1) (.ok 1) (.ok 1)])).2.2.2 (by decide)
  have h4 := h.2.2.2.1
  rw [show (runOps ConstraintSystem.new
      [.assignA (.ok 1) (.ok 1) (.ok 1), .assignA (.ok 1) (.ok 1) (.ok 1),
       .assignA (.ok 1) (.ok 1) (.ok 1)]).aL_assignment.length = 3 from rfl]
    at h4
  rw [h4, next_power_of_two_three]

/-- C5 counterexample: the prover-style allocation (3, 4, 10) with
3 * 4 ≠ 10 does not fail: the gate is allocated, the values are stored
verbatim, and prover-input creation succeeds. -/
theorem C5_counterexample :
    (3 : Scalar) * 4 ≠ 10 ∧
    (ConstraintSystem.new.assign_a (.ok 3) (.ok 4) (.ok 10)).1.aL_assignment =
      [.ok 3] ∧
    (ConstraintSystem.new.assign_a (.ok 3) (.ok 4) (.ok 10)).1.aR_assignment =
      [.ok 4] ∧
    (ConstraintSystem.new.assign_a (.ok 3) (.ok 4) (.ok 10)).1.aO_assignment =
      [.ok 10] ∧
    ((ConstraintSystem.new.assign_a (.ok 3) (.ok 4) (.ok 10)).1.create_proof_input
        []).2 = .ok ⟨[3], [4], [10], []⟩ := by
  exact ⟨by decide, rfl, rfl, rfl, rfl⟩

/-- C5 amended: `assign_a` performs no gate-consistency check; allocating a
multiplication gate with present values succeeds unconditionally, even when
left * right ≠ out, and simply appends the three values (inconsistent gates
are left for proof verification to reject). -/
theorem C5_no_allocation_check (cs : ConstraintSystem) (l r o : Scalar)
    (h : l * r ≠ o) :
    (cs.assign_a (.ok l) (.ok r) (.ok o)).1 =
      { cs with aL_assignment := cs.aL_assignment ++ [.ok l],
                aR_assignment := cs.aR_assignment ++ [.ok r],
                aO_assignment := cs.aO_assignment ++ [.ok o] } ∧
    (cs.assign_a (.ok l) (.ok r) (.ok o)).2 =
      (⟨.aL, cs.aL_assignment.length⟩, ⟨.aR, cs.aR_assignment.length⟩,
       ⟨.aO, cs.aO_assignment.length⟩) :=
  ⟨rfl, rfl⟩

/-- Witness for the amended C5 at (3, 4, 10). -/
theorem C5_no_allocation_check_witness :
    (ConstraintSystem.new.assign_a (.ok 3) (.ok 4) (.ok 10)).1 =
      { ConstraintSystem.new with
          aL_assignment := [.ok 3], aR_assignment := [.ok 4],
          aO_assignment := [.ok 10] } ∧
    (ConstraintSystem.new.assign_a (.ok 3) (.ok 4) (.ok 10)).2 =
      (⟨.aL, 0⟩, ⟨.aR, 0⟩, ⟨.aO, 0⟩) := by
  have h := C5_no_allocation_check ConstraintSystem.new 3 4 10 (by decide)
  simpa using h

/-- C6 counterexample: a mixed triple (one present value, two missing) is not
rejected: the gate is allocated, the mixed assignments are stored as given,
and the three handles are returned. -/
theorem C6_counterexample :
    ConstraintSystem.new.assign_a (.ok 3) err_assignment err_assignment =
      ({ lc_vec := [], aL_assignment := [.ok 3],
         aR_assignment := [err_assignment], aO_assignment := [err_assignment],
         v_assignment := [] },
       (⟨.aL, 0⟩, ⟨.aR, 0⟩, ⟨.aO, 0⟩)) :=
  rfl

/-- C6 amended: `assign_a` performs no mixing check: a triple mixing present
values and missing values allocates the gate all the same, storing the triple
verbatim and returning the three fresh handles (the stored errors surface
only later, at prover-input creation). -/
theorem C6_mixed_allocates (cs : ConstraintSystem) (l r o : Assignment)
    (hmix : ¬ ((l.isOk = true ∧ r.isOk = true ∧ o.isOk = true) ∨
      (l.isOk = false ∧ r.isOk = false ∧ o.isOk = false))) :
    (cs.assign_a l r o).1 =
      { cs with aL_assignment := cs.aL_assignment ++ [l],
                aR_assignment := cs.aR_assignment ++ [r],
                aO_assignment := cs.aO_assignment ++ [o] } ∧
    (cs.assign_a l r o).2 =
      (⟨.aL, cs.aL_assignment.length⟩, ⟨.aR, cs.aR_assignment.length⟩,
       ⟨.aO, cs.aO_assignment.length⟩) :=
  ⟨rfl, rfl⟩

/-- Witness for the amended C6 at the mixed triple (Ok 3, err, err). -/
theorem C6_mixed_allocates_witness :
    (ConstraintSystem.new.assign_a (.ok 3) err_assignment err_assignment).1 =
      { ConstraintSystem.new with
          aL_assignment := [.ok 3], aR_assignment := [err_assignment],
          aO_assignment := [err_assignment] } ∧
    (ConstraintSystem.new.assign_a (.ok 3) err_assignment err_assignment).2 =
      (⟨.aL, 0⟩, ⟨.aR, 0⟩, ⟨.aO, 0⟩) := by
  have h := C6_mixed_allocates ConstraintSystem.new (.ok 3) err_assignment
    err_assignment (by decide)
  simpa using h

lemma collectAssignments_length {xs : List Assignment} {ys : List Scalar}
    (h : collectAssignments xs = .ok ys) : ys.length = xs.length := by
  induction xs generalizing ys with
  | nil =>
    simp only [collectAssignments] at h
    cases h
    rfl
  | cons a rest ih =>
    cases a with
    | ok s =>
      simp only [collectAssignments] at h
      cases hr : collectAssignments rest with
      | ok zs =>
        rw [hr] at h
        cases h
        simp [ih hr]
      | error e =>
        rw [hr] at h
        cases h
    | err e =>
      simp only [collectAssignments] at h
      cases h

lemma collectAssignments_ok_forall {xs : List Assignment} {ys : List Scalar}
    (h : collectAssignments xs = .ok ys) : ∀ a ∈ xs, a.isOk = true := by
  induction xs generalizing ys with
  | nil => simp
  | cons a rest ih =>
    cases a with
    | ok s =>
      simp only [collectAssignments] at h
      cases hr : collectAssignments rest with
      | ok zs =>
        intro b hb
        rcases List.mem_cons.mp hb with rfl | hb
        · rfl
        · exact ih hr b hb
      | error e =>
        rw [hr] at h
        cases h
    | err e =>
      simp only [collectAssignments] at h
      cases h

lemma collectAssignments_error_mem {xs : List Assignment} {e : R1CSError}
    (h : collectAssignments xs = .error e) : .err e ∈ xs := by
  induction xs with
  | nil =>
    simp only [collectAssignments] at h
    cases h
  | cons a rest ih =>
    cases a with
    | ok s =>
      simp only [collectAssignments] at h
      cases hr : collectAssignments rest with
      | ok zs =>
        rw [hr] at h
        cases h
      | error e1 =>
        rw [hr] at h
        cases h
        exact List.mem_cons_of_mem _ (ih hr)
    | err e1 =>
      simp only [collectAssignments] at h
      cases h
      exact List.mem_cons_self _ _

lemma create_prover_input_ok {cs : ConstraintSystem} {vb : List Scalar}
    {pi : ProverInput} (h : cs.create_prover_input vb = .ok pi) :
    collectAssignments cs.aL_assignment = .ok pi.aL ∧
    collectAssignments cs.aR_assignment = .ok pi.aR ∧
    collectAssignments cs.aO_assignment = .ok pi.aO ∧
    pi.v_blinding = vb := by
  unfold ConstraintSystem.create_prover_input at h
  cases hA : collectAssignments cs.aL_assignment with
  | error e =>
    rw [hA] at h
    cases h
  | ok aL =>
    rw [hA] at h
    cases hB : collectAssignments cs.aR_assignment with
    | error e =>
      rw [hB] at h
      cases h
    | ok aR =>
      rw [hB] at h
      cases hC : collectAssignments cs.aO_assignment with
      | error e =>
        rw [hC] at h
        cases h
      | ok aO =>
        rw [hC] at h
        simp only [Except.ok.injEq] at h
        subst h
        exact ⟨rfl, rfl, rfl, rfl⟩

lemma create_circuit_n (cs : ConstraintSystem) :
    cs.create_circuit.n = cs.get_n := rfl

lemma create_circuit_m (cs : ConstraintSystem) :
    cs.create_circuit.m = cs.v_assignment.length := rfl

lemma create_circuit_q (cs : ConstraintSystem) :
    cs.create_circuit.q = cs.lc_vec.length := rfl

/-- C7 counterexample: the prover bundle produced by finalization does not
contain the committed-wire values v: two systems whose committed values
differ (3 versus 4) finalize to the very same ProverInput. -/
theorem C7_counterexample :
    ((ConstraintSystem.new.assign_v (.ok 3)).1.create_proof_input []).2 =
      ((ConstraintSystem.new.assign_v (.ok 4)).1.create_proof_input []).2 ∧
    (ConstraintSystem.new.assign_v (.ok 3)).1.v_assignment ≠
      (ConstraintSystem.new.assign_v (.ok 4)).1.v_assignment := by
  exact ⟨rfl, by decide⟩

/-- C7 amended: successful prover finalization produces a ProverInput of four
components (a_L, a_R, a_O, v_blinding): the multiplier vectors have the
padded length n of the produced circuit, and v_blinding is passed through
with length m; the committed values v are not part of the bundle. -/
theorem C7_prover_input_components (cs : ConstraintSystem)
    (v_blinding : List Scalar) (pi : ProverInput)
    (hR : cs.aR_assignment.length = cs.aL_assignment.length)
    (hO : cs.aO_assignment.length = cs.aL_assignment.length)
    (hvb : v_blinding.length = cs.get_m)
    (hok : (cs.create_proof_input v_blinding).2 = .ok pi) :
    pi.aL.length = (cs.create_proof_input v_blinding).1.n ∧
    pi.aR.length = (cs.create_proof_input v_blinding).1.n ∧
    pi.aO.length = (cs.create_proof_input v_blinding).1.n ∧
    pi.v_blinding = v_blinding ∧
    pi.v_blinding.length = (cs.create_proof_input v_blinding).1.m := by
  obtain ⟨hA, hB, hC, hvbeq⟩ := create_prover_input_ok hok
  have hn : (cs.create_proof_input v_blinding).1.n = cs.get_n := by
    show cs.padded.create_circuit.n = cs.get_n
    rw [create_circuit_n, get_n_padded]
  have hm : (cs.create_proof_input v_blinding).1.m = cs.get_m := by
    show cs.padded.create_circuit.m = cs.get_m
    rw [create_circuit_m, padded_v_assignment]
    rfl
  refine ⟨?_, ?_, ?_, hvbeq, ?_⟩
  · rw [collectAssignments_length hA, hn, padded_aL_length]
  · rw [collectAssignments_length hB, hn, padded_aR_length cs hR]
  · rw [collectAssignments_length hC, hn, padded_aO_length cs hO]
  · rw [hvbeq, hm, hvb]

/-- Witness for the amended C7 at a one-gate, one-committed-wire system. -/
theorem C7_prover_input_components_witness :
    (⟨[2], [3], [6], [7]⟩ : ProverInput).aL.length =
      ((runOps ConstraintSystem.new
        [.assignA (.ok 2) (.ok 3) (.ok 6), .assignV (.ok 5)]).create_proof_input
        [7]).1.n ∧
    (⟨[2], [3], [6], [7]⟩ : ProverInput).v_blinding.length =
      ((runOps ConstraintSystem.new
        [.assignA (.ok 2) (.ok 3) (.ok 6), .assignV (.ok 5)]).create_proof_input
        [7]).1.m := by
  have h := C7_prover_input_components
    (runOps ConstraintSystem.new
      [.assignA (.ok 2) (.ok 3) (.ok 6), .assignV (.ok 5)])
    [7] ⟨[2], [3], [6], [7]⟩ rfl rfl rfl rfl
  exact ⟨h.1, h.2.2.2.2⟩

/-- C8 counterexample: finalizing a prover whose stored assignments are the
errors produced by `err_assignment` fails with `InvalidVariableAssignment`,
which is not `MissingAssignment`. -/
theorem C8_counterexample :
    ((ConstraintSystem.new.assign_a err_assignment err_assignment
        err_assignment).1.create_proof_input []).2 =
      .error .InvalidVariableAssignment ∧
    R1CSError.InvalidVariableAssignment ≠ R1CSError.MissingAssignment := by
  exact ⟨rfl, by decide⟩

/-- C8 amended: if any entry of the a_L, a_R or a_O assignment vectors is a
stored error when the prover builds its input, the construction fails, and
the error returned is one of the stored errors (the one placed there at
allocation, e.g. `InvalidVariableAssignment` from `err_assignment`), not a
separate `MissingAssignment`. -/
theorem C8_error_propagation (cs : ConstraintSystem) (v_blinding : List Scalar)
    (h : ¬ ∀ a ∈ cs.aL_assignment ++ cs.aR_assignment ++ cs.aO_assignment,
      a.isOk = true) :
    ∃ e, cs.create_prover_input v_blinding = .error e ∧
      .err e ∈ cs.aL_assignment ++ cs.aR_assignment ++ cs.aO_assignment := by
  cases hA : collectAssignments cs.aL_assignment with
  | error e =>
    refine ⟨e, ?_, ?_⟩
    · unfold ConstraintSystem.create_prover_input
      rw [hA]
    · simp only [List.append_assoc, List.mem_append]
      exact Or.inl (collectAssignments_error_mem hA)
  | ok aL =>
    cases hB : collectAssignments cs.aR_assignment with
    | error e =>
      refine ⟨e, ?_, ?_⟩
      · unfold ConstraintSystem.create_prover_input
        rw [hA, hB]
      · simp only [List.append_assoc, List.mem_append]
        exact Or.inr (Or.inl (collectAssignments_error_mem hB))
    | ok aR =>
      cases hC : collectAssignments cs.aO_assignment with
      | error e =>
        refine ⟨e, ?_, ?_⟩
        · unfold ConstraintSystem.create_prover_input
          rw [hA, hB, hC]
        · simp only [List.append_assoc, List.mem_append]
          exact Or.inr (Or.inr (collectAssignments_error_mem hC))
      | ok aO =>
        exfalso
        apply h
        intro a ha
        simp only [List.append_assoc, List.mem_append] at ha
        rcases ha with ha | ha | ha
        · exact collectAssignments_ok_forall hA a ha
        · exact collectAssignments_ok_forall hB a ha
        · exact collectAssignments_ok_forall hC a ha

lemma getD_mem_length {M : List (List Scalar)} {n : Nat}
    (hM : ∀ row ∈ M, row.length = n) {i : Nat} (hi : i < M.length) :
    (M.getD i []).length = n := by
  rw [List.getD_eq_getElem?_getD, List.getElem?_eq_getElem hi]
  exact hM _ (List.getElem_mem hi)

lemma matWrite_length (M : List (List Scalar)) (i j : Nat) (x : Scalar) :
    (matWrite M i j x).length = M.length :=
  List.length_set ..

lemma matWrite_rows {M : List (List Scalar)} {n : Nat}
    (hM : ∀ row ∈ M, row.length = n) {i : Nat} (hi : i < M.length)
    (j : Nat) (x : Scalar) :
    ∀ row ∈ matWrite M i j x, row.length = n := by
  intro row hrow
  rcases List.mem_or_eq_of_mem_set hrow with h | rfl
  · exact hM row h
  · rw [List.length_set]
    exact getD_mem_length hM hi

lemma mget_matWrite_self {M : List (List Scalar)} {n : Nat}
    (hM : ∀ row ∈ M, row.length = n) {i k : Nat} (hi : i < M.length)
    (hk : k < n) (x : Scalar) :
    mget (matWrite M i k x) i k = x := by
  unfold mget matWrite
  rw [List.getD_eq_getElem?_getD (M.set i ((M.getD i []).set k x)) i [],
    List.getElem?_set_eq_of_lt _ hi, Option.getD_some,
    List.getD_eq_getElem?_getD ((M.getD i []).set k x) k 0,
    List.getElem?_set_eq_of_lt _ (by rw [getD_mem_length hM hi]; exact hk),
    Option.getD_some]

lemma mget_matWrite_other_col {M : List (List Scalar)} {k idx : Nat}
    (hne : idx ≠ k) (i : Nat) (x : Scalar) :
    mget (matWrite M i idx x) i k = mget M i k := by
  unfold mget matWrite
  rw [List.getD_eq_getElem?_getD (M.set i ((M.getD i []).set idx x)) i [],
    List.getElem?_set_self']
  cases h : M[i]? with
  | none =>
    rw [List.getD_eq_getElem?_getD M i [], h]
    rfl
  | some row =>
    have hrow : M.getD i [] = row := by
      rw [List.getD_eq_getElem?_getD M i [], h]
      rfl
    rw [List.getD_eq_getElem?_getD M i [], h]
    simp only [Option.map_some, Option.getD_some, Function.const]
    rw [List.getD_eq_getElem?_getD (row.set idx x) k 0,
      List.getElem?_set_ne hne, ← List.getD_eq_getElem?_getD]

lemma mget_matWrite_other_row {M : List (List Scalar)} {i i1 : Nat}
    (h : i1 ≠ i) (idx j : Nat) (x : Scalar) :
    mget (matWrite M i1 idx x) i j = mget M i j := by
  unfold mget matWrite
  rw [List.getD_eq_getElem?_getD (M.set i1 ((M.getD i1 []).set idx x)) i [],
    List.getElem?_set_ne h, ← List.getD_eq_getElem?_getD]

lemma cellOf_applyTerm_other_row {st : AssemblyState} {i i1 : Nat}
    (h : i1 ≠ i) (t : Variable × Scalar) (ty : VariableType) (k : Nat) :
    cellOf (applyTerm i1 st t) ty i k = cellOf st ty i k := by
  obtain ⟨⟨vt, idx⟩, coeff⟩ := t
  cases vt <;> cases ty <;>
    simp [applyTerm, cellOf, mget_matWrite_other_row h]

lemma goodShape_applyTerm {st : AssemblyState} {q n m : Nat}
    (hs : goodShape st q n m) {i : Nat} (hi : i < q)
    (t : Variable × Scalar) : goodShape (applyTerm i st t) q n m := by
  obtain ⟨h1, h2, h3, h4, h5, h6, h7, h8, h9⟩ := hs
  obtain ⟨⟨vt, idx⟩, coeff⟩ := t
  cases vt <;>
    exact ⟨by simp [applyTerm, matWrite_length, h1, h3, h5, h7],
      by first
        | exact matWrite_rows h2 (h1 ▸ hi) _ _
        | exact h2,
      by simp [applyTerm, matWrite_length, h1, h3, h5, h7],
      by first
        | exact matWrite_rows h4 (h3 ▸ hi) _ _
        | exact h4,
      by simp [applyTerm, matWrite_length, h1, h3, h5, h7],
      by first
        | exact matWrite_rows h6 (h5 ▸ hi) _ _
        | exact h6,
      by simp [applyTerm, matWrite_length, h1, h3, h5, h7],
      by first
        | exact matWrite_rows h8 (h7 ▸ hi) _ _
        | exact h8,
      h9⟩

lemma cellOf_applyTerm_self {st : AssemblyState} {q n m : Nat}
    (hs : goodShape st q n m) {i : Nat} (hi : i < q)
    (t : Variable × Scalar) (ty : VariableType) {k : Nat}
    (hk : k < dimOf ty n m) :
    cellOf (applyTerm i st t) ty i k =
      if t.1 = ⟨ty, k⟩ then signCoeff ty t.2 else cellOf st ty i k := by
  obtain ⟨h1, h2, h3, h4, h5, h6, h7, h8, h9⟩ := hs
  obtain ⟨⟨vt, idx⟩, coeff⟩ := t
  cases vt <;> cases ty <;>
    simp only [applyTerm, cellOf, Variable.mk.injEq, signCoeff, dimOf] at hk ⊢
  case aL.aL | aR.aR | aO.aO | v.v =>
    all_goals
      by_cases hidx : idx = k
      · subst hidx
        simp only [and_self, if_pos, true_and, if_true]
        first
          | exact mget_matWrite_self h2 (h1 ▸ hi) hk _
          | exact mget_matWrite_self h4 (h3 ▸ hi) hk _
          | exact mget_matWrite_self h6 (h5 ▸ hi) hk _
          | exact mget_matWrite_self h8 (h7 ▸ hi) hk _
      · rw [if_neg (by simp [hidx])]
        exact mget_matWrite_other_col hidx _ _
  all_goals simp

lemma goodShape_foldTerms {u : List (Variable × Scalar)} {st : AssemblyState}
    {q n m : Nat} (hs : goodShape st q n m) {i : Nat} (hi : i < q) :
    goodShape (u.foldl (applyTerm i) st) q n m := by
  induction u generalizing st with
  | nil => exact hs
  | cons t ts ih => exact ih (goodShape_applyTerm hs hi t)

lemma cellOf_foldTerms {ts : List (Variable × Scalar)} {st : AssemblyState}
    {q n m : Nat} (hs : goodShape st q n m) {i : Nat} (hi : i < q)
    (ty : VariableType) {k : Nat} (hk : k < dimOf ty n m) :
    cellOf (ts.foldl (applyTerm i) st) ty i k =
      writeResult ty (cellOf st ty i k) (lastWrite ⟨ty, k⟩ ts) := by
  induction ts generalizing st with
  | nil => rfl
  | cons t ts ih =>
    rw [List.foldl_cons, ih (goodShape_applyTerm hs hi t)]
    cases hlw : lastWrite ⟨ty, k⟩ ts with
    | some x => simp [lastWrite, hlw, writeResult]
    | none =>
      simp only [lastWrite, hlw, writeResult]
      rw [cellOf_applyTerm_self hs hi t ty hk]
      by_cases ht : t.1 = (⟨ty, k⟩ : Variable)
      · simp [ht, writeResult]
      · simp [ht, writeResult]

lemma cellOf_foldTerms_other_row {ts : List (Variable × Scalar)}
    {st : AssemblyState} {i i1 : Nat} (h : i1 ≠ i) (ty : VariableType)
    (k : Nat) : cellOf (ts.foldl (applyTerm i1) st) ty i k = cellOf st ty i k := by
  induction ts generalizing st with
  | nil => rfl
  | cons t ts ih =>
    rw [List.foldl_cons, ih, cellOf_applyTerm_other_row h]

lemma c_foldTerms (ts : List (Variable × Scalar)) (st : AssemblyState)
    (i : Nat) : (ts.foldl (applyTerm i) st).c = st.c := by
  induction ts generalizing st with
  | nil => rfl
  | cons t ts ih =>
    rw [List.foldl_cons, ih]
    obtain ⟨⟨vt, idx⟩, coeff⟩ := t
    cases vt <;> rfl

lemma applyLC_c (st : AssemblyState) (i : Nat) (lc : LinearCombination) :
    (applyLC st i lc).c = st.c.set i lc.constant := by
  show (lc.terms.foldl (applyTerm i) st).c.set i lc.constant = st.c.set i lc.constant
  rw [c_foldTerms]

lemma cellOf_ignores_c (st : AssemblyState) (c1 : List Scalar)
    (ty : VariableType) (i k : Nat) :
    cellOf { st with c := c1 } ty i k = cellOf st ty i k := by
  cases ty <;> rfl

lemma cellOf_applyLC_self {st : AssemblyState} {q n m : Nat}
    (hs : goodShape st q n m) {i : Nat} (hi : i < q) (lc : LinearCombination)
    (ty : VariableType) {k : Nat} (hk : k < dimOf ty n m) :
    cellOf (applyLC st i lc) ty i k =
      writeResult ty (cellOf st ty i k) (lastWrite ⟨ty, k⟩ lc.terms) := by
  unfold applyLC
  rw [cellOf_ignores_c, cellOf_foldTerms hs hi ty hk]

lemma cellOf_applyLC_other_row {st : AssemblyState} {i i1 : Nat} (h : i1 ≠ i)
    (lc : LinearCombination) (ty : VariableType) (k : Nat) :
    cellOf (applyLC st i1 lc) ty i k = cellOf st ty i k := by
  unfold applyLC
  rw [cellOf_ignores_c, cellOf_foldTerms_other_row h]

lemma goodShape_applyLC {st : AssemblyState} {q n m : Nat}
    (hs : goodShape st q n m) {i : Nat} (hi : i < q)
    (lc : LinearCombination) : goodShape (applyLC st i lc) q n m := by
  obtain ⟨a1, a2, a3, a4, a5, a6, a7, a8, a9⟩ := goodShape_foldTerms
    (u := lc.terms) hs hi
  refine ⟨a1, a2, a3, a4, a5, a6, a7, a8, ?_⟩
  show ((lc.terms.foldl (applyTerm i) st).c.set i lc.constant).length = q
  rw [List.length_set]
  exact a9

lemma c_getD_applyLC_self {st : AssemblyState} {q : Nat}
    (hc : st.c.length = q) {i : Nat} (hi : i < q) (lc : LinearCombination) :
    (applyLC st i lc).c.getD i 0 = lc.constant := by
  rw [applyLC_c, List.getD_eq_getElem?_getD,
    List.getElem?_set_eq_of_lt _ (by rw [hc]; exact hi), Option.getD_some]

lemma c_getD_applyLC_other {st : AssemblyState} {i i1 : Nat} (h : i1 ≠ i)
    (lc : LinearCombination) :
    (applyLC st i1 lc).c.getD i 0 = st.c.getD i 0 := by
  rw [applyLC_c, List.getD_eq_getElem?_getD, List.getElem?_set_ne h,
    ← List.getD_eq_getElem?_getD]

lemma applyLC_c_length (st : AssemblyState) (i : Nat) (lc : LinearCombination) :
    (applyLC st i lc).c.length = st.c.length := by
  rw [applyLC_c, List.length_set]

lemma foldRows_cons (st : AssemblyState) (p : Nat × LinearCombination)
    (rows : List (Nat × LinearCombination)) :
    foldRows st (p :: rows) = foldRows (applyLC st p.1 p.2) rows := rfl

lemma enumFrom_cons (s : Nat) (lc : LinearCombination)
    (rest : List LinearCombination) :
    List.enumFrom s (lc :: rest) = (s, lc) :: List.enumFrom (s + 1) rest := rfl

lemma goodShape_foldRows {w : List LinearCombination} {s : Nat}
    {st : AssemblyState} {q n m : Nat} (hs : goodShape st q n m)
    (hq : s + w.length ≤ q) :
    goodShape (foldRows st (List.enumFrom s w)) q n m := by
  induction w generalizing s st with
  | nil => exact hs
  | cons lc rest ih =>
    have hq1 : s + (rest.length + 1) ≤ q := by simpa using hq
    rw [enumFrom_cons, foldRows_cons]
    exact ih (goodShape_applyLC hs (by omega) lc) (by omega)

lemma cellOf_foldRows_lt {lcs : List LinearCombination} {s i : Nat}
    (h : i < s) (st : AssemblyState) (ty : VariableType) (k : Nat) :
    cellOf (foldRows st (List.enumFrom s lcs)) ty i k = cellOf st ty i k := by
  induction lcs generalizing s st with
  | nil => rfl
  | cons lc rest ih =>
    rw [enumFrom_cons, foldRows_cons, ih (Nat.lt_succ_of_lt h),
      cellOf_applyLC_other_row (by omega)]

lemma c_getD_foldRows_lt {lcs : List LinearCombination} {s i : Nat}
    (h : i < s) (st : AssemblyState) :
    (foldRows st (List.enumFrom s lcs)).c.getD i 0 = st.c.getD i 0 := by
  induction lcs generalizing s st with
  | nil => rfl
  | cons lc rest ih =>
    rw [enumFrom_cons, foldRows_cons, ih (Nat.lt_succ_of_lt h),
      c_getD_applyLC_other (by omega)]

lemma cellOf_foldRows_get {lcs : List LinearCombination} {s j q n m : Nat}
    {z : AssemblyState} (hs : goodShape z q n m) (hq : s + lcs.length ≤ q)
    {lc : LinearCombination} (hj : lcs.get? j = some lc) (ty : VariableType)
    {k : Nat} (hk : k < dimOf ty n m) :
    cellOf (foldRows z (List.enumFrom s lcs)) ty (s + j) k =
      writeResult ty (cellOf z ty (s + j) k) (lastWrite ⟨ty, k⟩ lc.terms) := by
  induction lcs generalizing s j z with
  | nil => cases hj
  | cons lc0 rest ih =>
    have hq1 : s + (rest.length + 1) ≤ q := by simpa using hq
    rw [enumFrom_cons, foldRows_cons]
    cases j with
    | zero =>
      have hlc : lc0 = lc := by simpa using hj
      subst hlc
      simp only [Nat.add_zero]
      rw [cellOf_foldRows_lt (by omega : s < s + 1)]
      exact cellOf_applyLC_self hs (by omega : s < q) lc0 ty hk
    | succ j =>
      have hj2 : rest.get? j = some lc := by simpa using hj
      have hrec := ih (s := s + 1) (j := j) (z := applyLC z s lc0)
        (goodShape_applyLC hs (i := s) (by omega) lc0) (by omega) hj2
      rw [show s + (j + 1) = s + 1 + j by omega, hrec,
        cellOf_applyLC_other_row (by omega)]

lemma c_getD_foldRows_get {lcs : List LinearCombination} {s j q : Nat}
    {z : AssemblyState} (hc : z.c.length = q) (hq : s + lcs.length ≤ q)
    {lc : LinearCombination} (hj : lcs.get? j = some lc) :
    (foldRows z (List.enumFrom s lcs)).c.getD (s + j) 0 = lc.constant := by
  induction lcs generalizing s j z with
  | nil => cases hj
  | cons lc0 rest ih =>
    have hq1 : s + (rest.length + 1) ≤ q := by simpa using hq
    rw [enumFrom_cons, foldRows_cons]
    cases j with
    | zero =>
      have hlc : lc0 = lc := by simpa using hj
      subst hlc
      simp only [Nat.add_zero]
      rw [c_getD_foldRows_lt (by omega : s < s + 1)]
      exact c_getD_applyLC_self hc (i := s) (by omega : s < q) lc0
    | succ j =>
      have hj2 : rest.get? j = some lc := by simpa using hj
      have hrec := ih (s := s + 1) (j := j) (z := applyLC z s lc0)
        (by rw [applyLC_c_length]; exact hc) (by omega) hj2
      rw [show s + (j + 1) = s + 1 + j by omega, hrec]

lemma mget_replicate (q r : Nat) (i k : Nat) :
    mget (List.replicate q (List.replicate r (0 : Scalar))) i k = 0 := by
  unfold mget
  by_cases h1 : i < q <;> by_cases h2 : k < r <;>
    simp [List.getD_eq_getElem?_getD, List.getElem?_replicate, h1, h2]

lemma goodShape_init (q n m : Nat) : goodShape (initAssembly q n m) q n m := by
  refine ⟨by simp [initAssembly], ?_, by simp [initAssembly], ?_,
    by simp [initAssembly], ?_, by simp [initAssembly], ?_,
    by simp [initAssembly]⟩ <;>
  · intro row hrow
    rw [List.eq_of_mem_replicate hrow]
    simp

lemma cellOf_init (q n m : Nat) (ty : VariableType) (i k : Nat) :
    cellOf (initAssembly q n m) ty i k = 0 := by
  cases ty <;> simp [cellOf, initAssembly, mget_replicate]

lemma create_circuit_matOf_cell (cs : ConstraintSystem) (ty : VariableType)
    (i k : Nat) :
    mget (cs.create_circuit.matOf ty) i k =
      cellOf (foldRows
        (initAssembly cs.lc_vec.length cs.get_n cs.v_assignment.length)
        (List.enumFrom 0 cs.lc_vec)) ty i k := by
  cases ty <;> rfl

lemma create_circuit_cell (cs : ConstraintSystem) {i : Nat}
    {lc : LinearCombination} (hlc : cs.lc_vec.get? i = some lc)
    (ty : VariableType) {k : Nat}
    (hk : k < dimOf ty cs.get_n cs.v_assignment.length) :
    mget (cs.create_circuit.matOf ty) i k =
      writeResult ty 0 (lastWrite ⟨ty, k⟩ lc.terms) := by
  have h := cellOf_foldRows_get (s := 0) (j := i)
    (goodShape_init cs.lc_vec.length cs.get_n cs.v_assignment.length)
    (by simp) hlc ty hk
  rw [Nat.zero_add] at h
  rw [create_circuit_matOf_cell, h, cellOf_init]

lemma create_circuit_c_getD (cs : ConstraintSystem) {i : Nat}
    {lc : LinearCombination} (hlc : cs.lc_vec.get? i = some lc) :
    cs.create_circuit.c.getD i 0 = lc.constant := by
  have h := c_getD_foldRows_get (s := 0) (j := i) (q := cs.lc_vec.length)
    (z := initAssembly cs.lc_vec.length cs.get_n cs.v_assignment.length)
    (by simp [initAssembly]) (by simp) hlc
  rw [Nat.zero_add] at h
  exact h

lemma lastWrite_none_forall {v : Variable} {ts : List (Variable × Scalar)}
    (h : lastWrite v ts = none) : ∀ t ∈ ts, t.1 ≠ v := by
  induction ts with
  | nil => simp
  | cons t ts ih =>
    intro t1 ht1
    unfold lastWrite at h
    cases hlw : lastWrite v ts with
    | some x =>
      rw [hlw] at h
      cases h
    | none =>
      rw [hlw] at h
      rcases List.mem_cons.mp ht1 with rfl | hmem
      · intro hv
        rw [if_pos hv] at h
        cases h
      · exact ih hlw t1 hmem

lemma lastWrite_mem {v : Variable} {ts : List (Variable × Scalar)} {x : Scalar}
    (h : lastWrite v ts = some x) : (v, x) ∈ ts := by
  induction ts with
  | nil => cases h
  | cons t ts ih =>
    unfold lastWrite at h
    cases hlw : lastWrite v ts with
    | some y =>
      rw [hlw] at h
      cases h
      exact List.mem_cons_of_mem _ (ih hlw)
    | none =>
      rw [hlw] at h
      by_cases hv : t.1 = v
      · rw [if_pos hv] at h
        cases h
        subst hv
        exact List.mem_cons_self _ _
      · rw [if_neg hv] at h
        cases h

lemma lastWrite_eq_of_uniq {v : Variable} {x : Scalar}
    {ts : List (Variable × Scalar)} (hmem : (v, x) ∈ ts)
    (huniq : ∀ t ∈ ts, t.1 = v → t.2 = x) : lastWrite v ts = some x := by
  induction ts with
  | nil => cases hmem
  | cons t ts ih =>
    unfold lastWrite
    cases hlw : lastWrite v ts with
    | some y =>
      have hy := huniq (v, y) (List.mem_cons_of_mem _ (lastWrite_mem hlw)) rfl
      simp only at hy
      rw [hy]
    | none =>
      rcases List.mem_cons.mp hmem with heq | hmem2
      · rw [← heq]
        simp
      · exact absurd rfl (lastWrite_none_forall hlw (v, x) hmem2)

/-- C2: sign convention of matrix assembly: a term (var, α) of the i-th
constraint whose variable is unique within that combination ends up as -α in
W_L, W_R or W_O when var is a multiplier wire, as +α in W_V when var is a
committed wire; the combination's constant is written to c[i]. -/
theorem C2_sign_convention (cs : ConstraintSystem) (i : Nat)
    (lc : LinearCombination) (var : Variable) (α : Scalar)
    (hlc : cs.lc_vec.get? i = some lc)
    (hmem : (var, α) ∈ lc.terms)
    (huniq : ∀ t ∈ lc.terms, t.1 = var → t.2 = α)
    (hdim : var.index < dimOf var.var_type cs.get_n cs.get_m) :
    (var.var_type = .aL → mget cs.create_circuit.W_L i var.index = -α) ∧
    (var.var_type = .aR → mget cs.create_circuit.W_R i var.index = -α) ∧
    (var.var_type = .aO → mget cs.create_circuit.W_O i var.index = -α) ∧
    (var.var_type = .v → mget cs.create_circuit.W_V i var.index = α) ∧
    cs.create_circuit.c.getD i 0 = lc.constant := by
  obtain ⟨ty, idx⟩ := var
  have hlw := lastWrite_eq_of_uniq hmem huniq
  have hcell := create_circuit_cell cs hlc ty (k := idx) hdim
  rw [hlw] at hcell
  have hc := create_circuit_c_getD cs hlc
  cases ty <;> refine ⟨?_, ?_, ?_, ?_, hc⟩ <;> intro hty <;>
    first
      | exact hcell
      | cases hty

/-- Witness for C2 on a concrete one-gate, one-committed-wire system with
the constraint 2·aL[0] + 5·v[0] + 7 = 0. -/
theorem C2_sign_convention_witness :
    mget ((runOps ConstraintSystem.new
      [.assignA (.ok 1) (.ok 1) (.ok 1), .assignV (.ok 1),
       .addConstraint ⟨[(⟨.aL, 0⟩, 2), (⟨.v, 0⟩, 5)], 7⟩]).create_circuit).W_L
      0 0 = -2 ∧
    ((runOps ConstraintSystem.new
      [.assignA (.ok 1) (.ok 1) (.ok 1), .assignV (.ok 1),
       .addConstraint ⟨[(⟨.aL, 0⟩, 2), (⟨.v, 0⟩, 5)], 7⟩]).create_circuit).c.getD
      0 0 = 7 := by
  have h := C2_sign_convention
    (runOps ConstraintSystem.new
      [.assignA (.ok 1) (.ok 1) (.ok 1), .assignV (.ok 1),
       .addConstraint ⟨[(⟨.aL, 0⟩, 2), (⟨.v, 0⟩, 5)], 7⟩])
    0 ⟨[(⟨.aL, 0⟩, 2), (⟨.v, 0⟩, 5)], 7⟩ ⟨.aL, 0⟩ 2 rfl (by decide)
    (by decide) (by decide)
  exact ⟨h.1 rfl, h.2.2.2.2⟩

/-- C3, evaluated at the failing input: one multiplier gate and a single
constraint holding the duplicate terms (MultiplierLeft 0, 1) and
(MultiplierLeft 0, 1): the assembler leaves W_L[0][0] = -1 (the second write
overwrites the first), not the sum -(1 + 1) the claim requires. -/
theorem C3_duplicate_overwrite :
    ((ConstraintSystem.new.assign_a (.ok 1) (.ok 1) (.ok 1)).1.constrain
        ⟨[(⟨.aL, 0⟩, 1), (⟨.aL, 0⟩, 1)], 0⟩).create_circuit.W_L = [[-1]] ∧
    (-1 : Scalar) ≠ -(1 + 1) := by
  refine ⟨?_, by decide⟩
  decide

/-- Witness for the amended C8 at a system whose a_R entry is a stored
error. -/
theorem C8_error_propagation_witness :
    ∃ e, (ConstraintSystem.new.assign_a (.ok 1) err_assignment
        (.ok 1)).1.create_prover_input [] = .error e ∧
      .err e ∈ (ConstraintSystem.new.assign_a (.ok 1) err_assignment
          (.ok 1)).1.aL_assignment ++
        (ConstraintSystem.new.assign_a (.ok 1) err_assignment
          (.ok 1)).1.aR_assignment ++
        (ConstraintSystem.new.assign_a (.ok 1) err_assignment
          (.ok 1)).1.aO_assignment := by
  exact C8_error_propagation _ [] (by decide)

lemma varInScope_runOp {cs : ConstraintSystem} {v : Variable}
    (h : varInScope cs v = true) (op : Op) :
    varInScope (runOp cs op) v = true := by
  obtain ⟨ty, idx⟩ := v
  cases op <;> cases ty <;>
    simp [varInScope, runOp, assign_a_fst, ConstraintSystem.assign_v,
      ConstraintSystem.make_variable, ConstraintSystem.constrain] at h ⊢ <;>
    omega

lemma scoped_runOps {ops : List Op} {cs : ConstraintSystem}
    (hv : opsValid cs ops = true) (hs : scopedCS cs) :
    scopedCS (runOps cs ops) := by
  induction ops generalizing cs with
  | nil => exact hs
  | cons op rest ih =>
    rw [runOps_cons]
    simp only [opsValid, Bool.and_eq_true] at hv
    refine ih hv.2 ?_
    intro lc hlc t ht
    cases op with
    | assignA l r o =>
      have hmem : lc ∈ cs.lc_vec := by
        simpa [runOp, assign_a_fst] using hlc
      exact varInScope_runOp (hs lc hmem t ht) _
    | assignV value =>
      have hmem : lc ∈ cs.lc_vec := by
        simpa [runOp, ConstraintSystem.assign_v,
          ConstraintSystem.make_variable] using hlc
      exact varInScope_runOp (hs lc hmem t ht) _
    | addConstraint lc1 =>
      have hsplit : lc ∈ cs.lc_vec ∨ lc = lc1 := by
        simpa [runOp, ConstraintSystem.constrain, List.mem_append] using hlc
      rcases hsplit with hmem | rfl
      · exact varInScope_runOp (hs lc hmem t ht) _
      · have h1 : lc.terms.all (fun t1 => varInScope cs t1.1) = true := hv.1
        exact varInScope_runOp ((List.all_eq_true.mp h1) t ht) _

lemma create_circuit_shape (cs : ConstraintSystem) :
    cs.create_circuit.W_L.length = cs.create_circuit.q ∧
    (∀ row ∈ cs.create_circuit.W_L, row.length = cs.create_circuit.n) ∧
    cs.create_circuit.W_R.length = cs.create_circuit.q ∧
    (∀ row ∈ cs.create_circuit.W_R, row.length = cs.create_circuit.n) ∧
    cs.create_circuit.W_O.length = cs.create_circuit.q ∧
    (∀ row ∈ cs.create_circuit.W_O, row.length = cs.create_circuit.n) ∧
    cs.create_circuit.W_V.length = cs.create_circuit.q ∧
    (∀ row ∈ cs.create_circuit.W_V, row.length = cs.create_circuit.m) ∧
    cs.create_circuit.c.length = cs.create_circuit.q := by
  have h := goodShape_foldRows (w := cs.lc_vec) (s := 0)
    (goodShape_init cs.lc_vec.length cs.get_n cs.v_assignment.length)
    (by simp)
  obtain ⟨a1, a2, a3, a4, a5, a6, a7, a8, a9⟩ := h
  exact ⟨a1, a2, a3, a4, a5, a6, a7, a8, a9⟩

/-- C10: if every constraint added along the operation sequence uses only
handles the system had already allocated, then every variable index in the
recorded constraints is below the corresponding dimension of the finalized
circuit (n for multiplier wires, m for committed wires), so matrix assembly
never writes out of bounds, and the produced matrices have shape q×n
(W_L, W_R, W_O), q×m (W_V) and length q (c). -/
theorem C10_in_bounds (ops : List Op)
    (h : opsValid ConstraintSystem.new ops = true) :
    let cs := runOps ConstraintSystem.new ops
    let C := cs.padded.create_circuit
    (∀ lc ∈ cs.lc_vec, ∀ t ∈ lc.terms,
      t.1.index < dimOf t.1.var_type C.n C.m) ∧
    C.W_L.length = C.q ∧ (∀ row ∈ C.W_L, row.length = C.n) ∧
    C.W_R.length = C.q ∧ (∀ row ∈ C.W_R, row.length = C.n) ∧
    C.W_O.length = C.q ∧ (∀ row ∈ C.W_O, row.length = C.n) ∧
    C.W_V.length = C.q ∧ (∀ row ∈ C.W_V, row.length = C.m) ∧
    C.c.length = C.q ∧
    C.q = cs.lc_vec.length ∧ C.n = cs.get_n ∧ C.m = cs.get_m := by
  intro cs C
  have hpar := runOps_parallel ops ConstraintSystem.new rfl rfl
  have hscope : scopedCS cs := scoped_runOps h (by intro lc hlc; cases hlc)
  have hq : C.q = cs.lc_vec.length := by
    show cs.padded.create_circuit.q = cs.lc_vec.length
    rw [create_circuit_q, padded_lc_vec]
  have hn : C.n = cs.get_n := by
    show cs.padded.create_circuit.n = cs.get_n
    rw [create_circuit_n, get_n_padded]
  have hm : C.m = cs.get_m := by
    show cs.padded.create_circuit.m = cs.get_m
    rw [create_circuit_m, padded_v_assignment]
    rfl
  obtain ⟨s1, s2, s3, s4, s5, s6, s7, s8, s9⟩ := create_circuit_shape cs.padded
  refine ⟨?_, s1, s2, s3, s4, s5, s6, s7, s8, s9, hq, hn, hm⟩
  intro lc hlc t ht
  have hv := hscope lc hlc t ht
  obtain ⟨⟨ty, idx⟩, coeff⟩ := t
  cases ty with
  | aL =>
    simp only [varInScope, decide_eq_true_eq] at hv
    simpa [dimOf, hn] using
      lt_of_lt_of_le hv (aL_length_le_get_n cs)
  | aR =>
    simp only [varInScope, decide_eq_true_eq] at hv
    rw [hpar.1] at hv
    simpa [dimOf, hn] using
      lt_of_lt_of_le hv (aL_length_le_get_n cs)
  | aO =>
    simp only [varInScope, decide_eq_true_eq] at hv
    rw [hpar.2] at hv
    simpa [dimOf, hn] using
      lt_of_lt_of_le hv (aL_length_le_get_n cs)
  | v =>
    simp only [varInScope, decide_eq_true_eq] at hv
    simpa [dimOf, hm, ConstraintSystem.get_m] using hv

/-- Witness for C10 at a concrete sequence: one gate, one committed wire and
one constraint over the returned handles. -/
theorem C10_in_bounds_witness :
    ((runOps ConstraintSystem.new
      [.assignA (.ok 1) (.ok 2) (.ok 2), .assignV (.ok 3),
       .addConstraint ⟨[(⟨.aL, 0⟩, 1), (⟨.v, 0⟩, 1)], 0⟩]).padded.create_circuit).c.length =
    ((runOps ConstraintSystem.new
      [.assignA (.ok 1) (.ok 2) (.ok 2), .assignV (.ok 3),
       .addConstraint ⟨[(⟨.aL, 0⟩, 1), (⟨.v, 0⟩, 1)], 0⟩]).padded.create_circuit).q := by
  have h := C10_in_bounds
    [.assignA (.ok 1) (.ok 2) (.ok 2), .assignV (.ok 3),
     .addConstraint ⟨[(⟨.aL, 0⟩, 1), (⟨.v, 0⟩, 1)], 0⟩] (by decide)
  exact h.2.2.2.2.2.2.2.2.2.1

lemma shapeEq_runOp {cs1 cs2 : ConstraintSystem} (h : shapeEq cs1 cs2)
    {op1 op2 : Op} (hop : opShapeEq op1 op2) :
    shapeEq (runOp cs1 op1) (runOp cs2 op2) := by
  obtain ⟨h1, h2, h3, h4, h5⟩ := h
  cases op1 <;> cases op2 <;>
    first
    | exact hop.elim
    | exact ⟨h1,
        by simp [runOp, assign_a_fst, h2],
        by simp [runOp, assign_a_fst, h3],
        by simp [runOp, assign_a_fst, h4], h5⟩
    | exact ⟨h1, h2, h3, h4,
        by simp [runOp, ConstraintSystem.assign_v,
          ConstraintSystem.make_variable, h5]⟩
    | (have hop2 : _ = _ := hop
       exact ⟨by simp [runOp, ConstraintSystem.constrain, h1, hop2],
         h2, h3, h4, h5⟩)

lemma shapeEq_runOps {ops1 ops2 : List Op}
    (hops : List.Forall₂ opShapeEq ops1 ops2) {cs1 cs2 : ConstraintSystem}
    (h : shapeEq cs1 cs2) : shapeEq (runOps cs1 ops1) (runOps cs2 ops2) := by
  induction hops generalizing cs1 cs2 with
  | nil => exact h
  | cons hop _ ih => exact ih (shapeEq_runOp h hop)

lemma shapeEq_padLoop {cs1 cs2 : ConstraintSystem} (h : shapeEq cs1 cs2)
    (k : Nat) : shapeEq (padLoop cs1 k) (padLoop cs2 k) := by
  obtain ⟨h1, h2, h3, h4, h5⟩ := h
  obtain ⟨a1, a2, a3, a4, a5⟩ := padLoop_fields k cs1
  obtain ⟨b1, b2, b3, b4, b5⟩ := padLoop_fields k cs2
  refine ⟨by rw [a1, b1, h1], ?_, ?_, ?_, by rw [a2, b2, h5]⟩
  · rw [a3, b3]
    simp [h2]
  · rw [a4, b4]
    simp [h3]
  · rw [a5, b5]
    simp [h4]

lemma shapeEq_padded {cs1 cs2 : ConstraintSystem} (h : shapeEq cs1 cs2) :
    shapeEq cs1.padded cs2.padded := by
  have h2 := h.2.1
  rw [padded_def, padded_def, h2]
  by_cases hc : cs2.aL_assignment.length = 0 ∨
      is_power_of_two cs2.aL_assignment.length = true
  · rw [if_pos hc, if_pos hc]
    exact h
  · rw [if_neg hc, if_neg hc]
    exact shapeEq_padLoop h _

lemma create_circuit_shapeEq {cs1 cs2 : ConstraintSystem}
    (h : shapeEq cs1 cs2) : cs1.create_circuit = cs2.create_circuit := by
  obtain ⟨h1, h2, h3, h4, h5⟩ := h
  have hn : cs1.get_n = cs2.get_n := by
    rw [get_n_def, get_n_def, h2]
  simp only [ConstraintSystem.create_circuit]
  rw [h1, h5, hn]

/-- C1: the circuit tuple (n, m, q, c, W_L, W_R, W_O, W_V) produced by
padding plus matrix assembly depends only on the sequence of calls and the
linear combinations, not on the assignment values supplied: two systems
built by call sequences that agree up to assignment values finalize to
identical circuits. -/
theorem C1_matrix_agreement (ops1 ops2 : List Op)
    (h : List.Forall₂ opShapeEq ops1 ops2) :
    (runOps ConstraintSystem.new ops1).padded.create_circuit =
      (runOps ConstraintSystem.new ops2).padded.create_circuit :=
  create_circuit_shapeEq
    (shapeEq_padded (shapeEq_runOps h ⟨rfl, rfl, rfl, rfl, rfl⟩))

/-- Witness for C1: a prover-style run (values 3, 4, 12 present) and the
corresponding verifier-style run (stored errors) produce the same circuit. -/
theorem C1_matrix_agreement_witness :
    (runOps ConstraintSystem.new
      [.assignA (.ok 3) (.ok 4) (.ok 12),
       .addConstraint ⟨[(⟨.aL, 0⟩, 1)], 0⟩]).padded.create_circuit =
    (runOps ConstraintSystem.new
      [.assignA err_assignment err_assignment err_assignment,
       .addConstraint ⟨[(⟨.aL, 0⟩, 1)], 0⟩]).padded.create_circuit :=
  C1_matrix_agreement _ _
    (List.Forall₂.cons trivial (List.Forall₂.cons rfl List.Forall₂.nil))
